import Mathlib

/-!
Verification development for the agent-backend concurrency/versioning core.

The definitions below are a shallow embedding of the Python modules
`agent_backend/atomic_operations.py`, `agent_backend/file_locks.py` and
`agent_backend/edit_versioning.py`:

* the filesystem is a map from absolute path strings to text contents;
* `hashlib.sha256(x.encode('utf-8')).hexdigest()` is embedded as a full
  executable SHA-256 over the UTF-8 bytes of the string (`sha256Hex`);
* the model is the sequential semantics of the code: each operation runs its
  lock-guarded critical section alone, so `acquire_lock` always succeeds and
  the `FileLockedError` branches are unreachable;
* `uuid4()` and wall-clock timestamps are modelled by fresh-counter fields of
  the state (`nextId`, `now`): ids are distinct and time is monotone;
* fallible Python code (raised exceptions) is modelled with `Except`.
-/

/-! ## SHA-256 over UTF-8 bytes (model of hashlib.sha256(...).hexdigest()) -/

/-- Truncation to a 32-bit word. -/
def w32 (n : Nat) : Nat := n % 4294967296

/-- Right rotation of a 32-bit word. -/
def rotr (x n : Nat) : Nat := w32 ((x >>> n) ||| (x <<< (32 - n)))

/-- UTF-8 encoding of a single character (the byte sequence `chr.encode()`). -/
def utf8Char (c : Char) : List Nat :=
  let n := c.toNat
  if n < 128 then [n]
  else if n < 2048 then [192 ||| (n >>> 6), 128 ||| (n &&& 63)]
  else if n < 65536 then
    [224 ||| (n >>> 12), 128 ||| ((n >>> 6) &&& 63), 128 ||| (n &&& 63)]
  else
    [240 ||| (n >>> 18), 128 ||| ((n >>> 12) &&& 63),
     128 ||| ((n >>> 6) &&& 63), 128 ||| (n &&& 63)]

/-- UTF-8 encoding of a string (the byte sequence `s.encode('utf-8')`). -/
def utf8Bytes (s : String) : List Nat := (s.toList.map utf8Char).flatten

/-- The SHA-256 round constants (FIPS 180-4, in decimal). -/
def sha256K : List Nat :=
  [1116352408, 1899447441, 3049323471, 3921009573, 961987163,
   1508970993, 2453635748, 2870763221, 3624381080, 310598401,
   607225278, 1426881987, 1925078388, 2162078206, 2614888103,
   3248222580, 3835390401, 4022224774, 264347078, 604807628,
   770255983, 1249150122, 1555081692, 1996064986, 2554220882,
   2821834349, 2952996808, 3210313671, 3336571891, 3584528711,
   113926993, 338241895, 666307205, 773529912, 1294757372,
   1396182291, 1695183700, 1986661051, 2177026350, 2456956037,
   2730485921, 2820302411, 3259730800, 3345764771, 3516065817,
   3600352804, 4094571909, 275423344, 430227734, 506948616,
   659060556, 883997877, 958139571, 1322822218, 1537002063,
   1747873779, 1955562222, 2024104815, 2227730452, 2361852424,
   2428436474, 2756734187, 3204031479, 3329325298]

/-- The SHA-256 initial hash state (FIPS 180-4, in decimal). -/
def sha256H0 : List Nat :=
  [1779033703, 3144134277, 1013904242, 2773480762,
   1359893119, 2600822924, 528734635, 1541459225]

/-- Message padding: append 0x80, zero bytes, then the 64-bit big-endian bit length. -/
def sha256Pad (msg : List Nat) : List Nat :=
  let len := msg.length
  let padLen := (55 + 64 - len % 64) % 64
  let bitLen := len * 8
  msg ++ [128] ++ List.replicate padLen 0 ++
    [w32 (bitLen >>> 56) % 256, (bitLen >>> 48) % 256, (bitLen >>> 40) % 256,
     (bitLen >>> 32) % 256, (bitLen >>> 24) % 256, (bitLen >>> 16) % 256,
     (bitLen >>> 8) % 256, bitLen % 256]

/-- Split a byte list into 64-byte blocks (structural recursion on a fuel bound
so that the kernel can evaluate it). -/
def chunks64Aux : Nat → List Nat → List (List Nat)
  | 0, _ => []
  | _ + 1, [] => []
  | fuel + 1, l => l.take 64 :: chunks64Aux fuel (l.drop 64)

/-- Split a byte list into 64-byte blocks. -/
def chunks64 (l : List Nat) : List (List Nat) := chunks64Aux l.length l

/-- Big-endian 32-bit words from a block of bytes. -/
def words32 : List Nat → List Nat
  | a :: b :: c :: d :: rest => (a <<< 24 ||| b <<< 16 ||| c <<< 8 ||| d) :: words32 rest
  | _ => []

/-- Element lookup with default 0. -/
def wd (l : List Nat) (i : Nat) : Nat := l.getD i 0

/-- Extend the 16 message-schedule words to 64. -/
def sha256Schedule (first16 : List Nat) : List Nat :=
  (List.range 48).foldl
    (fun w _ =>
      let n := w.length
      let s0 := (rotr (wd w (n - 15)) 7) ^^^ (rotr (wd w (n - 15)) 18) ^^^ ((wd w (n - 15)) >>> 3)
      let s1 := (rotr (wd w (n - 2)) 17) ^^^ (rotr (wd w (n - 2)) 19) ^^^ ((wd w (n - 2)) >>> 10)
      w ++ [w32 (wd w (n - 16) + s0 + wd w (n - 7) + s1)])
    first16

/-- One SHA-256 compression round. -/
def sha256Round (st : List Nat) (kw : Nat × Nat) : List Nat :=
  let a := wd st 0
  let b := wd st 1
  let c := wd st 2
  let d := wd st 3
  let e := wd st 4
  let f := wd st 5
  let g := wd st 6
  let h := wd st 7
  let S1 := (rotr e 6) ^^^ (rotr e 11) ^^^ (rotr e 25)
  let ch := (e &&& f) ^^^ ((4294967295 - e) &&& g)
  let t1 := w32 (h + S1 + ch + kw.1 + kw.2)
  let S0 := (rotr a 2) ^^^ (rotr a 13) ^^^ (rotr a 22)
  let maj := (a &&& b) ^^^ (a &&& c) ^^^ (b &&& c)
  let t2 := w32 (S0 + maj)
  [w32 (t1 + t2), a, b, c, w32 (d + t1), e, f, g]

/-- Process one 64-byte block. -/
def sha256Block (h : List Nat) (block : List Nat) : List Nat :=
  let w := sha256Schedule (words32 block)
  let st := (sha256K.zip w).foldl sha256Round h
  (h.zip st).map (fun p => w32 (p.1 + p.2))

/-- SHA-256 digest (as eight 32-bit words) of a byte list. -/
def sha256Words (msg : List Nat) : List Nat :=
  (chunks64 (sha256Pad msg)).foldl sha256Block sha256H0

/-- Lower-case hex digit. -/
def hexDigit (n : Nat) : Char :=
  if n < 10 then Char.ofNat (48 + n) else Char.ofNat (87 + n)

/-- Eight-digit lower-case hex rendering of a 32-bit word. -/
def hex8 (n : Nat) : List Char :=
  [hexDigit ((n >>> 28) % 16), hexDigit ((n >>> 24) % 16),
   hexDigit ((n >>> 20) % 16), hexDigit ((n >>> 16) % 16),
   hexDigit ((n >>> 12) % 16), hexDigit ((n >>> 8) % 16),
   hexDigit ((n >>> 4) % 16), hexDigit (n % 16)]

/-- Model of `hashlib.sha256(s.encode('utf-8')).hexdigest()`: the lower-case
hex SHA-256 digest of the UTF-8 encoding of `s`. -/
def sha256Hex (s : String) : String :=
  String.mk ((sha256Words (utf8Bytes s)).map hex8).flatten

set_option maxRecDepth 10000

deriving instance DecidableEq for Except

/-! ## Path resolution (model of `(workspace_root / file_path).resolve()`)

`pathlib`'s `/` replaces the left side when the right side is absolute, and
`resolve()` normalises `.`, `..` and empty components (symlinks are not
modelled).  Paths are rendered as absolute slash-separated strings. -/

/-- Split a character list at every occurrence of `sep` (the semantics of
`str.split(sep)`, written structurally so the kernel can evaluate it). -/
def splitOnChar (sep : Char) : List Char → List (List Char)
  | [] => [[]]
  | c :: rest =>
      if c = sep then [] :: splitOnChar sep rest
      else
        match splitOnChar sep rest with
        | h :: t => (c :: h) :: t
        | [] => [[c]]

/-- Split a string at every occurrence of a separator character. -/
def splitString (sep : Char) (s : String) : List String :=
  (splitOnChar sep s.toList).map String.mk

/-- Does `s` start with `pre` (Python's `str.startswith`)? -/
def strStartsWith (s pre : String) : Bool :=
  pre.toList.isPrefixOf s.toList

/-- Does `s` end with `suf` (Python's `str.endswith`)? -/
def strEndsWith (s suf : String) : Bool :=
  suf.toList.reverse.isPrefixOf s.toList.reverse

/-- Join strings with a separator. -/
def joinSep (sep : String) : List String → String
  | [] => ""
  | [x] => x
  | x :: y :: xs => x ++ sep ++ joinSep sep (y :: xs)

/-- One step of lexical path normalisation over a component stack. -/
def normStep (stack : List String) (comp : String) : List String :=
  if comp = "" ∨ comp = "." then stack
  else if comp = ".." then stack.dropLast
  else stack ++ [comp]

/-- Normalised component list of an absolute path string. -/
def pathComponents (s : String) : List String :=
  (splitString (Char.ofNat 47) s).foldl normStep []

/-- Components of `(root / p).resolve()`: an absolute `p` replaces `root`. -/
def resolvedComponents (root p : String) : List String :=
  if strStartsWith p "/" then pathComponents p
  else (splitString (Char.ofNat 47) root ++ splitString (Char.ofNat 47) p).foldl normStep []

/-- String rendering of `(root / p).resolve()`. -/
def resolvePath (root p : String) : String :=
  "/" ++ joinSep "/" (resolvedComponents root p)

/-- The code's workspace containment check:
`str(resolved_path).startswith(str(self.workspace_root))`. -/
def workspaceGuard (root p : String) : Bool :=
  strStartsWith (resolvePath root p) root

/-- The intended meaning of "resolves inside the workspace root directory":
the root's components are a prefix of the resolved path's components. -/
def resolvesInsideWorkspace (root p : String) : Bool :=
  (pathComponents root).isPrefixOf (resolvedComponents root p)

/-! ## File locks and version tracking (`file_locks.py`)

Only `FileLockManager.update_file_version` / `get_file_version` matter to the
claims; locks always succeed in the sequential model (each critical section
runs alone), so the `FileLockedError` branches of the callers are
unreachable and are not represented. -/

/-- Model of the `FileVersion` dataclass (per-path version counter). -/
structure FileVersion where
  version : Nat
  etag : String
  content : String
  owner : String
  createdAt : Nat
deriving DecidableEq, Repr

/-! ## Atomic file operations (`atomic_operations.py`) -/

/-- State touched by `AtomicFileOperations`: the filesystem (absolute path to
text content; Python file contents that are not valid text are out of scope
because every write goes through `str` content), the lock manager's version
map (keyed by the caller-supplied `file_path` string, exactly as
`update_file_version` does), and a clock modelling `time.time()`. -/
structure AtomicState where
  disk : String → Option String
  versions : String → Option FileVersion
  now : Nat

/-- Model of the `AtomicOperationResult` dataclass. -/
structure AtomicOperationResult where
  success : Bool
  filePath : String
  content : String
  etag : String
  version : Nat
  error : Option String := none
  conflictResolved : Bool := false
deriving DecidableEq, Repr

/-- Create or overwrite a file. -/
def setFile (d : String → Option String) (p c : String) : String → Option String :=
  fun q => if q = p then some c else d q

/-- Model of `Path.rename`: the destination receives the source content, the source
disappears. -/
def renameFile (d : String → Option String) (src dst : String) : String → Option String :=
  fun q => if q = dst then d src else if q = src then none else d q

/-- Model of `FileLockManager.update_file_version`: increments the per-path counter
(defaulting to 0 when the path was never tracked) and stores the new
fingerprint. -/
def updateFileVersion (s : AtomicState) (p content etag owner : String) :
    FileVersion × AtomicState :=
  let cur := (s.versions p).getD
    { version := 0, etag := "", content := "", owner := "", createdAt := 0 }
  let nv : FileVersion :=
    { version := cur.version + 1, etag := etag, content := content,
      owner := owner, createdAt := s.now }
  (nv, { s with versions := fun q => if q = p then some nv else s.versions q })

/-- Name of the timestamped backup file created by `_write_file_atomic`
(`file_path.with_suffix(f"{file_path.suffix}.backup.{int(time.time())}")`). -/
def backupPathOf (p : String) (t : Nat) : String := p ++ ".backup." ++ toString t

/-- Name of the `tempfile.NamedTemporaryFile` used by `_write_file_atomic`
(`.tmp_<name>.<random>` in the same directory; only its freshness relative to
the target matters, so it is modelled as a time-stamped sibling). -/
def tmpPathOf (p : String) (t : Nat) : String := p ++ ".tmp." ++ toString t

/-- Name of the timestamped soft-delete backup used by `atomic_delete`. -/
def deletedPathOf (p : String) (t : Nat) : String := p ++ ".deleted." ++ toString t

/-- Fault injection point for `_write_file_atomic`: either the temp-file write
succeeds, or an exception is raised inside the `with NamedTemporaryFile(...)`
block after `partialContent` reached the temp file (e.g. a full disk). -/
inductive TempWriteFault where
  | ok
  | failDuringWrite (partialContent : String)
deriving DecidableEq, Repr

/-- Model of `AtomicFileOperations._write_file_atomic` on the filesystem.
Steps, as in the source: (1) if `backup` and the target exists, rename it to
the timestamped backup; (2) write the content to a fresh temp file
(`delete=False`), binding `temp_path` only after the write succeeds; (3) rename
the temp file onto the target.  On an exception the handler unlinks the temp
file only when `temp_path` is bound (`'temp_path' in locals()`) — a failure
inside the temp-write step happens before that binding, so the temp file stays
on disk and the exception propagates. -/
def writeFileAtomic (d : String → Option String) (p c : String) (t : Nat)
    (fault : TempWriteFault) (backup : Bool := true) :
    Except String String × (String → Option String) :=
  let tmp := tmpPathOf p t
  let d1 := if backup ∧ (d p).isSome then renameFile d p (backupPathOf p t) else d
  match fault with
  | .failDuringWrite partialContent =>
      (Except.error "temp write failed", setFile d1 tmp partialContent)
  | .ok =>
      let d2 := setFile d1 tmp c
      let d3 := renameFile d2 tmp p
      (Except.ok (sha256Hex c), d3)

/-- The optimistic-concurrency check of `atomic_write`
(`if expected_etag and resolved_path.exists(): ...`): it runs only when
`expected_etag` is truthy (neither `None` nor the empty string, Python
truthiness) and the target exists, and yields the current etag when that
differs from the expected one. -/
def writeConflictCheck (s : AtomicState) (resolved : String)
    (expectedEtag : Option String) : Option String :=
  match expectedEtag, s.disk resolved with
  | some e, some cur =>
      if e = "" then none
      else if sha256Hex cur ≠ e then some (sha256Hex cur) else none
  | _, _ => none

/-- Model of `AtomicFileOperations.atomic_write`.  The lock is always granted
in the sequential model; `_read_file_atomic` cannot raise because the disk
stores decoded strings. -/
def atomicWrite (s : AtomicState) (root p c owner : String)
    (expectedEtag : Option String) (fault : TempWriteFault) :
    AtomicOperationResult × AtomicState :=
  let resolved := resolvePath root p
  if ¬ workspaceGuard root p then
    ({ success := false, filePath := p, content := c, etag := "", version := 0,
       error := some ("Path " ++ p ++ " is outside workspace") }, s)
  else
    match writeConflictCheck s resolved expectedEtag with
    | some curEtag =>
        ({ success := false, filePath := p, content := c, etag := curEtag,
           version := 0, error := some "Conflict detected: ETag mismatch",
           conflictResolved := false }, s)
    | none =>
        match writeFileAtomic s.disk resolved c s.now fault with
        | (Except.error msg, dFailed) =>
            ({ success := false, filePath := p, content := c, etag := "",
               version := 0, error := some ("Write failed: " ++ msg) },
             { s with disk := dFailed, now := s.now + 1 })
        | (Except.ok etag, dNew) =>
            let s1 : AtomicState := { s with disk := dNew, now := s.now + 1 }
            let upd := updateFileVersion s1 p c etag owner
            ({ success := true, filePath := p, content := c, etag := etag,
               version := upd.1.version }, upd.2)

/-- Errors raised by `atomic_read`. -/
inductive ReadError where
  | outsideWorkspace
  | notFound
deriving DecidableEq, Repr

/-- Model of `AtomicFileOperations.atomic_read`: workspace guard, existence
check, read content and hash of the raw bytes, then version-tracking update. -/
def atomicRead (s : AtomicState) (root p owner : String) :
    Except ReadError (String × String × Nat) × AtomicState :=
  if ¬ workspaceGuard root p then (Except.error ReadError.outsideWorkspace, s)
  else
    match s.disk (resolvePath root p) with
    | none => (Except.error ReadError.notFound, s)
    | some content =>
        let etag := sha256Hex content
        let upd := updateFileVersion s p content etag owner
        (Except.ok (content, etag, upd.1.version), upd.2)

/-- Model of `AtomicFileOperations.atomic_delete`: workspace guard, existence
check, rename to the timestamped "deleted" backup, then version-tracking
update with empty content and etag. -/
def atomicDelete (s : AtomicState) (root p owner : String) :
    AtomicOperationResult × AtomicState :=
  let resolved := resolvePath root p
  if ¬ workspaceGuard root p then
    ({ success := false, filePath := p, content := "", etag := "", version := 0,
       error := some ("Path " ++ p ++ " is outside workspace") }, s)
  else
    match s.disk resolved with
    | none =>
        ({ success := false, filePath := p, content := "", etag := "",
           version := 0, error := some ("File " ++ p ++ " does not exist") }, s)
    | some _ =>
        let d1 := renameFile s.disk resolved (deletedPathOf resolved s.now)
        let s1 : AtomicState := { s with disk := d1, now := s.now + 1 }
        let upd := updateFileVersion s1 p "" "" owner
        ({ success := true, filePath := p, content := "", etag := "",
           version := upd.1.version }, upd.2)

/-- Errors raised before the body of the `atomic_read_modify_write` context
manager runs. -/
inductive RmwError where
  | outsideWorkspace
  | conflictDetected
deriving DecidableEq, Repr

/-- Model of `AtomicFileOperations.atomic_read_modify_write` up to its
`yield`: workspace guard, read of the current content (empty when absent),
then the fingerprint conflict check against the lock manager's last recorded
version. -/
def atomicReadModifyWriteEnter (s : AtomicState) (root p : String) :
    Except RmwError (String × String) :=
  if ¬ workspaceGuard root p then Except.error RmwError.outsideWorkspace
  else
    let ce : String × String :=
      match s.disk (resolvePath root p) with
      | some c => (c, sha256Hex c)
      | none => ("", "")
    match s.versions p with
    | some cv =>
        if cv.etag ≠ ce.2 then Except.error RmwError.conflictDetected
        else Except.ok ce
    | none => Except.ok ce

/-! ## Edit versioning (`edit_versioning.py`)

The three in-memory stores (`_edit_operations`, `_edit_versions`,
`_edit_conflicts`) are CPython dicts keyed by fresh uuid strings, so iteration
over `.values()` is in insertion order; they are modelled as insertion-ordered
lists.  `uuid4()` is modelled by the `nextId` counter and `datetime.now` by the
monotone `now` counter.  The JSON mirroring (`_save_edit_*`) rewrites the full
document from the in-memory store on every mutation and is not modelled
separately: the in-memory store is the persisted content. -/

/-- Model of the `EditSource` enum. -/
inductive EditSource where
  | user
  | agent
  | system
deriving DecidableEq, Repr

/-- Model of the `EditType` enum. -/
inductive EditType where
  | searchReplace
  | fullContent
  | insert
  | delete
deriving DecidableEq, Repr

/-- Model of the `ConflictResolutionStrategy` enum. -/
inductive ConflictResolutionStrategy where
  | userPriority
  | agentPriority
  | merge
  | manual
deriving DecidableEq, Repr

/-- Model of the `EditOperation` dataclass (the free-form `metadata` dict is
not represented; nothing reads it in the modelled code paths). -/
structure EditOperation where
  id : Nat
  filePath : String
  source : EditSource
  editType : EditType
  timestamp : Nat
  owner : String
  description : String
  searchText : Option String := none
  replaceText : Option String := none
  content : Option String := none
  position : Option Nat := none
  length : Option Nat := none
deriving DecidableEq, Repr

/-- Model of the `EditVersion` dataclass. -/
structure EditVersion where
  versionId : Nat
  filePath : String
  content : String
  etag : String
  timestamp : Nat
  source : EditSource
  owner : String
  baseVersionId : Option Nat := none
  editOperations : List Nat := []
  conflicts : List Nat := []
deriving DecidableEq, Repr

/-- Model of the `EditConflict` dataclass. -/
structure EditConflict where
  conflictId : Nat
  filePath : String
  userVersionId : Nat
  agentVersionId : Nat
  timestamp : Nat
  resolutionStrategy : ConflictResolutionStrategy
  resolved : Bool := false
  resolvedVersionId : Option Nat := none
  resolutionNotes : Option String := none
deriving DecidableEq, Repr

/-- State of an `EditVersionManager` (fresh instance: the stores start empty).
`disk` stands for the filesystem seen by the manager's `atomic_ops`, used only
by the no-versions fallback of `aggregate_edits`. -/
structure EvmState where
  operations : List EditOperation
  versions : List EditVersion
  conflicts : List EditConflict
  disk : String → Option String
  nextId : Nat
  now : Nat

/-- A fresh `EditVersionManager` over an empty workspace. -/
def initEvm : EvmState :=
  { operations := [], versions := [], conflicts := [],
    disk := fun _ => none, nextId := 0, now := 0 }

/-- Model of `EditVersionManager.record_edit_operation`. -/
def recordEditOperation (s : EvmState) (p : String) (src : EditSource)
    (ty : EditType) (owner desc : String)
    (search repl cont : Option String) : EditOperation × EvmState :=
  let op : EditOperation :=
    { id := s.nextId, filePath := p, source := src, editType := ty,
      timestamp := s.now, owner := owner, description := desc,
      searchText := search, replaceText := repl, content := cont }
  (op, { s with operations := s.operations ++ [op],
                nextId := s.nextId + 1, now := s.now + 1 })

/-- Model of `EditVersionManager.create_edit_version`. -/
def createEditVersion (s : EvmState) (p c : String) (src : EditSource)
    (owner : String) (base : Option Nat) (opIds : List Nat) :
    EditVersion × EvmState :=
  let v : EditVersion :=
    { versionId := s.nextId, filePath := p, content := c, etag := sha256Hex c,
      timestamp := s.now, source := src, owner := owner,
      baseVersionId := base, editOperations := opIds, conflicts := [] }
  (v, { s with versions := s.versions ++ [v],
               nextId := s.nextId + 1, now := s.now + 1 })

/-- Does a version match the path and optional source filter of
`get_latest_version`? -/
def versionMatches (p : String) (src : Option EditSource) (v : EditVersion) : Bool :=
  match src with
  | none => v.filePath = p
  | some srcv => v.filePath = p ∧ v.source = srcv

/-- One step of Python's `max(versions, key=lambda v: v.timestamp)`: the first
maximum wins, so a later element replaces the accumulator only when strictly
greater. -/
def laterVersion (acc : Option EditVersion) (v : EditVersion) : Option EditVersion :=
  match acc with
  | none => some v
  | some a => if v.timestamp > a.timestamp then some v else acc

/-- Python `max` by timestamp over the versions matching path and source filter. -/
def latestOf (vs : List EditVersion) (p : String) (src : Option EditSource) :
    Option EditVersion :=
  (vs.filter (versionMatches p src)).foldl laterVersion none

/-- Model of `EditVersionManager.get_latest_version`. -/
def getLatestVersion (s : EvmState) (p : String) (src : Option EditSource) :
    Option EditVersion :=
  latestOf s.versions p src

/-- The unresolved conflicts recorded for a path (the `existing_conflicts`
filter inside `detect_conflicts`). -/
def unresolvedFor (s : EvmState) (p : String) : List EditConflict :=
  s.conflicts.filter (fun c => c.filePath = p ∧ c.resolved = false)

/-- The conflict record freshly created by `detect_conflicts`. -/
def detectedConflict (s : EvmState) (p : String) (uv av : EditVersion) : EditConflict :=
  { conflictId := s.nextId, filePath := p, userVersionId := uv.versionId,
    agentVersionId := av.versionId, timestamp := s.now,
    resolutionStrategy := ConflictResolutionStrategy.merge }

/-- The update `detect_conflicts` applies to the version store: append the new
conflict id to the conflict lists of the two involved versions. -/
def markConflict (cid uvId avId : Nat) (v : EditVersion) : EditVersion :=
  if v.versionId = uvId ∨ v.versionId = avId then
    { v with conflicts := v.conflicts ++ [cid] }
  else v

/-- Model of `EditVersionManager.detect_conflicts`: when the latest user and
agent versions both exist with different etags and no unresolved conflict is
recorded for the path, create one (strategy `MERGE`), append its id to both
versions' conflict lists, and return it; otherwise return nothing. -/
def detectConflicts (s : EvmState) (p : String) : List EditConflict × EvmState :=
  match getLatestVersion s p (some EditSource.user),
        getLatestVersion s p (some EditSource.agent) with
  | some uv, some av =>
      if uv.etag = av.etag then ([], s)
      else if (unresolvedFor s p).isEmpty then
        let c := detectedConflict s p uv av
        let newVersions := s.versions.map
          (markConflict c.conflictId uv.versionId av.versionId)
        ([c], { s with conflicts := s.conflicts ++ [c], versions := newVersions,
                       nextId := s.nextId + 1, now := s.now + 1 })
      else ([], s)
  | _, _ => ([], s)

/-- Model of Python's `str.splitlines()` for newline-separated text (the
repository's contents use `\n`): no trailing empty line. -/
def splitlines (s : String) : List String :=
  if s = "" then []
  else
    let parts := splitString (Char.ofNat 10) s
    if strEndsWith s "\n" then parts.dropLast else parts

/-- Model of `EditVersionManager._content_similarity`: Jaccard similarity of
the line sets (Python floats are modelled as exact rationals). -/
def contentSimilarity (c1 c2 : String) : Rat :=
  if c1 = "" ∧ c2 = "" then mkRat 1 1
  else if c1 = "" ∨ c2 = "" then mkRat 0 1
  else
    let l1 := (splitlines c1).toFinset
    let l2 := (splitlines c2).toFinset
    if l1 = ∅ ∧ l2 = ∅ then mkRat 1 1
    else
      let inter := (l1 ∩ l2).card
      let union := (l1 ∪ l2).card
      if union > 0 then mkRat inter union else 0

/-- The threshold `0.8` of `_merge_versions` (Python floats are modelled as
exact rationals). -/
def mergeThreshold : Rat := mkRat 4 5

/-- Python's `str.replace(search, repl, 1)` on character lists: replace the
leftmost occurrence, or return the input unchanged when there is none. -/
def replaceFirstList (search repl : List Char) : List Char → List Char
  | [] => []
  | c :: rest =>
      if search.isPrefixOf (c :: rest) then repl ++ (c :: rest).drop search.length
      else c :: replaceFirstList search repl rest

/-- Python's `str.replace(search, repl, 1)`. -/
def replaceFirst (s search repl : String) : String :=
  String.mk (replaceFirstList search.toList repl.toList s.toList)

/-- Does a character list occur contiguously inside another? -/
def isInfixList (search : List Char) : List Char → Bool
  | [] => search.isEmpty
  | c :: rest => search.isPrefixOf (c :: rest) || isInfixList search rest

/-- Does `search` occur in `s` (Python's `search in s`)? -/
def occursIn (search s : String) : Bool :=
  isInfixList search.toList s.toList

/-- One iteration of the replay loop in
`_apply_agent_edits_to_user_content`, without the raising branch: a
search-replace with truthy search and replace text replaces its first
occurrence (a no-op when the text does not occur); everything else leaves the
content unchanged. -/
def applyEditPure (acc : String) (op : EditOperation) : String :=
  match op.editType, op.searchText, op.replaceText with
  | EditType.searchReplace, some st, some rt =>
      if st = "" ∨ rt = "" then acc else replaceFirst acc st rt
  | _, _, _ => acc

/-- One iteration of the replay loop in
`_apply_agent_edits_to_user_content`: a `FULL_CONTENT` operation raises
`ValueError`, everything else proceeds as `applyEditPure`. -/
def applyEditStep (acc : String) (op : EditOperation) : Except Unit String :=
  if op.editType = EditType.fullContent then Except.error ()
  else Except.ok (applyEditPure acc op)

/-- The agent operations replayed by `_apply_agent_edits_to_user_content`:
recorded operations (in insertion order) whose id the agent version lists. -/
def agentOps (s : EvmState) (av : EditVersion) : List EditOperation :=
  s.operations.filter (fun op => av.editOperations.contains op.id)

/-- Model of `EditVersionManager._apply_agent_edits_to_user_content`. -/
def applyAgentEditsToUserContent (s : EvmState) (uv av : EditVersion) :
    Except Unit String :=
  (agentOps s av).foldlM applyEditStep uv.content

/-- The `MANUAL`-strategy conflict record created when `_merge_versions`
gives up. -/
def manualConflictFor (s : EvmState) (uv av : EditVersion) : EditConflict :=
  { conflictId := s.nextId, filePath := uv.filePath,
    userVersionId := uv.versionId, agentVersionId := av.versionId,
    timestamp := s.now,
    resolutionStrategy := ConflictResolutionStrategy.manual }

/-- Model of `EditVersionManager._merge_versions`: below the similarity
threshold, or when the replay raises, persist a fresh unresolved
`MANUAL`-strategy conflict and return empty content; otherwise return the
replayed content with no conflicts. -/
def mergeVersions (s : EvmState) (uv av : EditVersion) :
    (String × List EditConflict) × EvmState :=
  if contentSimilarity uv.content av.content < mergeThreshold then
    let c := manualConflictFor s uv av
    (("", [c]), { s with conflicts := s.conflicts ++ [c],
                         nextId := s.nextId + 1, now := s.now + 1 })
  else
    match applyAgentEditsToUserContent s uv av with
    | Except.ok merged => ((merged, []), s)
    | Except.error _ =>
        let c := manualConflictFor s uv av
        (("", [c]), { s with conflicts := s.conflicts ++ [c],
                             nextId := s.nextId + 1, now := s.now + 1 })

/-- Python's `max([user_version, agent_version], key=lambda v: v.timestamp)`:
the agent version only when strictly more recent. -/
def moreRecent (uv av : EditVersion) : EditVersion :=
  if av.timestamp > uv.timestamp then av else uv

/-- Model of `EditVersionManager.aggregate_edits`.  Note that
`detect_conflicts` returns only conflicts created by this very call, so the
strategy branch runs exactly when the divergence is first detected here. -/
def aggregateEdits (s : EvmState) (p : String)
    (strategy : ConflictResolutionStrategy) :
    (String × List EditConflict) × EvmState :=
  match getLatestVersion s p (some EditSource.user),
        getLatestVersion s p (some EditSource.agent) with
  | none, none =>
      match s.disk p with
      | some c => ((c, []), s)
      | none => (("", []), s)
  | none, some av => ((av.content, []), s)
  | some uv, none => ((uv.content, []), s)
  | some uv, some av =>
      if ((detectConflicts s p).1.filter (fun c => c.resolved = false)).isEmpty then
        (((moreRecent uv av).content, []), (detectConflicts s p).2)
      else
        match strategy with
        | ConflictResolutionStrategy.userPriority =>
            ((uv.content, []), (detectConflicts s p).2)
        | ConflictResolutionStrategy.agentPriority =>
            ((av.content, []), (detectConflicts s p).2)
        | ConflictResolutionStrategy.merge =>
            mergeVersions (detectConflicts s p).2 uv av
        | ConflictResolutionStrategy.manual =>
            (("", (detectConflicts s p).1.filter (fun c => c.resolved = false)),
             (detectConflicts s p).2)

/-- The first mutation of `resolve_conflict`: mark the conflict resolved and
attach the notes. -/
def markResolved (cid : Nat) (notes : Option String) (k : EditConflict) : EditConflict :=
  if k.conflictId = cid then { k with resolved := true, resolutionNotes := notes }
  else k

/-- The second mutation of `resolve_conflict`: link the conflict to the
version created for its resolution. -/
def linkResolution (cid vid : Nat) (k : EditConflict) : EditConflict :=
  if k.conflictId = cid then { k with resolvedVersionId := some vid } else k

/-- Model of `EditVersionManager.resolve_conflict`: unknown ids raise; a known
conflict is marked resolved, a `SYSTEM` version with the user version as base
is created, and the conflict is linked to it. -/
def resolveConflict (s : EvmState) (cid : Nat) (resolutionContent : String)
    (notes : Option String) : Except Unit (EditVersion × EvmState) :=
  match s.conflicts.find? (fun c => c.conflictId = cid) with
  | none => Except.error ()
  | some c =>
      let s1 := { s with conflicts := s.conflicts.map (markResolved cid notes) }
      let created := createEditVersion s1 c.filePath resolutionContent
        EditSource.system "conflict_resolution" (some c.userVersionId) []
      let conflicts2 :=
        created.2.conflicts.map (linkResolution cid created.1.versionId)
      Except.ok (created.1, { created.2 with conflicts := conflicts2 })

/-! ## The manager as a state machine (for reachability claims) -/

/-- The public mutating calls of `EditVersionManager`. -/
inductive EvmOp where
  | recordOp (p : String) (src : EditSource) (ty : EditType) (owner desc : String)
      (search repl cont : Option String)
  | createVersion (p c : String) (src : EditSource) (owner : String)
      (base : Option Nat) (opIds : List Nat)
  | detect (p : String)
  | aggregate (p : String) (strategy : ConflictResolutionStrategy)
  | resolve (cid : Nat) (c : String) (notes : Option String)

/-- Effect of one call on the manager state (a raising `resolve_conflict`
leaves the state unchanged). -/
def runOp (s : EvmState) : EvmOp → EvmState
  | EvmOp.recordOp p src ty owner desc search repl cont =>
      (recordEditOperation s p src ty owner desc search repl cont).2
  | EvmOp.createVersion p c src owner base opIds =>
      (createEditVersion s p c src owner base opIds).2
  | EvmOp.detect p => (detectConflicts s p).2
  | EvmOp.aggregate p strategy => (aggregateEdits s p strategy).2
  | EvmOp.resolve cid c notes =>
      match resolveConflict s cid c notes with
      | Except.error _ => s
      | Except.ok (_, s2) => s2

/-- Effect of a call sequence. -/
def runOps (s : EvmState) (ops : List EvmOp) : EvmState := ops.foldl runOp s

/-- Is this an unresolved `MERGE`-strategy conflict for the path? -/
def mergeConflictPred (p : String) (c : EditConflict) : Bool :=
  c.filePath = p ∧ c.resolved = false ∧
    c.resolutionStrategy = ConflictResolutionStrategy.merge

/-- Number of unresolved conflicts for a path whose resolution strategy is
`MERGE` (the kind `detect_conflicts` creates). -/
def unresolvedMergeCount (s : EvmState) (p : String) : Nat :=
  (s.conflicts.filter (mergeConflictPred p)).length

/-- The invariant that actually holds of the conflict store: per path, at
most two unresolved conflicts at any time, of which at most one has the
`MERGE` strategy. -/
def ConflictInv (s : EvmState) : Prop :=
  ∀ p, (unresolvedFor s p).length ≤ 2 ∧ unresolvedMergeCount s p ≤ 1

/-! ## Concrete states used by witnesses and counterexamples -/

/-- The per-path version counter recorded by the lock manager (0 when the
path was never tracked). -/
def versionCounter (s : AtomicState) (p : String) : Nat :=
  match s.versions p with
  | some v => v.version
  | none => 0

/-- A workspace `/ws` holding one file `a.txt` with content `"x=1\n"` and no
tracked versions. -/
def c1State : AtomicState :=
  { disk := fun q => if q = "/ws/a.txt" then some "x=1\n" else none,
    versions := fun _ => none, now := 0 }

/-- An empty workspace with no tracked versions. -/
def emptyAtomicState : AtomicState :=
  { disk := fun _ => none, versions := fun _ => none, now := 0 }

/-- A filesystem whose workspace root is `/ws` while a sibling directory
`/wsevil` holds a secret file. -/
def c5State : AtomicState :=
  { disk := fun q => if q = "/wsevil/secret.txt" then some "s3cr3t" else none,
    versions := fun _ => none, now := 0 }

/-- Manager state reached by: create a user version `"u\n"` of `f.txt`, create
a diverging agent version `"a\n"`, then run `detect_conflicts` (which records
one unresolved conflict). -/
def preConflictState : EvmState := runOps initEvm
  [EvmOp.createVersion "f.txt" "u\n" EditSource.user "alice" none [],
   EvmOp.createVersion "f.txt" "a\n" EditSource.agent "bot" none [],
   EvmOp.detect "f.txt"]

/-- Manager state reached by: create diverging user/agent versions of `f.txt`
with line similarity 0 and then aggregate with the `MERGE` strategy. -/
def c6State : EvmState := runOps initEvm
  [EvmOp.createVersion "f.txt" "u\n" EditSource.user "alice" none [],
   EvmOp.createVersion "f.txt" "a\n" EditSource.agent "bot" none [],
   EvmOp.aggregate "f.txt" ConflictResolutionStrategy.merge]

/-- Manager state with a user version `"a\nb\nc\nd\ne\n"` and an agent version
`"a\nb\nc\nd\ne\nf\n"` (line similarity 5/6) whose recorded operations are two
search-replace edits, the first with search text `"zzz"` that occurs in
neither content. -/
def c4State : EvmState := runOps initEvm
  [EvmOp.recordOp "f.txt" EditSource.agent EditType.searchReplace "bot" "edit"
     (some "zzz") (some "w") none,
   EvmOp.recordOp "f.txt" EditSource.agent EditType.searchReplace "bot" "edit2"
     (some "e\n") (some "E\n") none,
   EvmOp.createVersion "f.txt" "a\nb\nc\nd\ne\n" EditSource.user "alice" none [],
   EvmOp.createVersion "f.txt" "a\nb\nc\nd\ne\nf\n" EditSource.agent "bot" none [0, 1]]

/-- Manager state with a user version `"a\nb\nc\nd\ne\n"` and an agent version
`"a\nb\nc\nd\ne\nf\n"` whose single recorded operation replaces `"e\n"` (which
occurs in the user content) by `"E\n"`. -/
def c8State : EvmState := runOps initEvm
  [EvmOp.recordOp "f.txt" EditSource.agent EditType.searchReplace "bot" "edit"
     (some "e\n") (some "E\n") none,
   EvmOp.createVersion "f.txt" "a\nb\nc\nd\ne\n" EditSource.user "alice" none [],
   EvmOp.createVersion "f.txt" "a\nb\nc\nd\ne\nf\n" EditSource.agent "bot" none [0]]

/-- Manager state with diverging user/agent versions (`"a\nb\nc\n"` versus
`"a\nb\nd\n"`, similarity 1/2) and no conflict records. -/
def c7State : EvmState := runOps initEvm
  [EvmOp.createVersion "f.txt" "a\nb\nc\n" EditSource.user "alice" none [],
   EvmOp.createVersion "f.txt" "a\nb\nd\n" EditSource.agent "bot" none []]

/-- The user version record created by the first `create_edit_version` call of
`c7State` (fresh ids and timestamps start at 0). -/
def c7UserV : EditVersion :=
  { versionId := 0, filePath := "f.txt", content := "a\nb\nc\n",
    etag := sha256Hex "a\nb\nc\n", timestamp := 0,
    source := EditSource.user, owner := "alice" }

/-- The agent version record created by the second `create_edit_version` call
of `c7State`. -/
def c7AgentV : EditVersion :=
  { versionId := 1, filePath := "f.txt", content := "a\nb\nd\n",
    etag := sha256Hex "a\nb\nd\n", timestamp := 1,
    source := EditSource.agent, owner := "bot" }

/-- The user version record of `c8State`. -/
def c8UserV : EditVersion :=
  { versionId := 1, filePath := "f.txt", content := "a\nb\nc\nd\ne\n",
    etag := sha256Hex "a\nb\nc\nd\ne\n", timestamp := 1,
    source := EditSource.user, owner := "alice" }

/-- The agent version record of `c8State`, listing the recorded operation. -/
def c8AgentV : EditVersion :=
  { versionId := 2, filePath := "f.txt", content := "a\nb\nc\nd\ne\nf\n",
    etag := sha256Hex "a\nb\nc\nd\ne\nf\n", timestamp := 2,
    source := EditSource.agent, owner := "bot", editOperations := [0] }

/-- The user version record of `c4State`. -/
def c4UserV : EditVersion :=
  { versionId := 2, filePath := "f.txt", content := "a\nb\nc\nd\ne\n",
    etag := sha256Hex "a\nb\nc\nd\ne\n", timestamp := 2,
    source := EditSource.user, owner := "alice" }

/-- The agent version record of `c4State`, listing both recorded operations. -/
def c4AgentV : EditVersion :=
  { versionId := 3, filePath := "f.txt", content := "a\nb\nc\nd\ne\nf\n",
    etag := sha256Hex "a\nb\nc\nd\ne\nf\n", timestamp := 3,
    source := EditSource.agent, owner := "bot", editOperations := [0, 1] }

/-! ## Helper lemmas -/

/-- A successful `_write_file_atomic` leaves the target holding exactly the
written content, whatever else (backup, temp bookkeeping) happened. -/
theorem writeFileAtomic_ok_disk (d : String → Option String) (p c : String)
    (t : Nat) (b : Bool) :
    (writeFileAtomic d p c t TempWriteFault.ok b).2 p = some c := by
  unfold writeFileAtomic renameFile setFile
  simp

/-! ## Claim C10: absent target skips the optimistic-concurrency check -/

/-- C10: when the target file does not exist on disk, `atomic_write` performs
the write unconditionally for every value of `expected_etag` — the
optimistic-concurrency check is skipped entirely, so a caller holding an
arbitrary (including stale) expected hash always creates the file with the
requested content. -/
theorem atomicWrite_skips_check_when_absent (s : AtomicState)
    (root p c owner : String) (e : Option String)
    (hguard : workspaceGuard root p = true)
    (habsent : s.disk (resolvePath root p) = none) :
    (atomicWrite s root p c owner e TempWriteFault.ok).1.success = true ∧
    (atomicWrite s root p c owner e TempWriteFault.ok).2.disk (resolvePath root p)
      = some c := by
  unfold atomicWrite
  simp only [hguard, not_true, if_false]
  cases e with
  | none =>
      simp only [writeConflictCheck, habsent, updateFileVersion]
      exact ⟨rfl, writeFileAtomic_ok_disk ..⟩
  | some et =>
      simp only [writeConflictCheck, habsent, updateFileVersion]
      exact ⟨rfl, writeFileAtomic_ok_disk ..⟩

/-- Witness for C10: on an empty workspace, a write of `"x=3\n"` to `a.txt`
carrying the stale expected etag `"deadbeef"` succeeds and creates the file. -/
theorem atomicWrite_skips_check_when_absent_witness :
    (atomicWrite emptyAtomicState "/ws" "a.txt" "x=3\n" "bob" (some "deadbeef")
        TempWriteFault.ok).1.success = true ∧
    (atomicWrite emptyAtomicState "/ws" "a.txt" "x=3\n" "bob" (some "deadbeef")
        TempWriteFault.ok).2.disk (resolvePath "/ws" "a.txt") = some "x=3\n" :=
  atomicWrite_skips_check_when_absent emptyAtomicState "/ws" "a.txt" "x=3\n"
    "bob" (some "deadbeef") (by decide) (by decide)

/-! ## Claim C9: write/read round-trip -/

/-- C9: for every in-workspace path and every content string, a successful
`atomic_write` with no expected etag followed by `atomic_read` returns exactly
the written content together with an etag equal to the SHA-256 hex digest of
its UTF-8 encoding. -/
theorem atomicWrite_atomicRead_roundtrip (s : AtomicState)
    (root p c owner reader : String)
    (hguard : workspaceGuard root p = true) :
    (atomicWrite s root p c owner none TempWriteFault.ok).1.success = true ∧
    ∃ v, (atomicRead (atomicWrite s root p c owner none TempWriteFault.ok).2
        root p reader).1 = Except.ok (c, sha256Hex c, v) := by
  unfold atomicWrite atomicRead
  simp only [hguard, not_true, if_false]
  simp only [writeConflictCheck, writeFileAtomic, renameFile, setFile,
    updateFileVersion]
  simp only [eq_self_iff_true, if_true]
  exact ⟨trivial, _, rfl⟩

/-- Witness for C9 at the empty workspace, path `a.txt`, content `"hello\n"`. -/
theorem atomicWrite_atomicRead_roundtrip_witness :
    (atomicWrite emptyAtomicState "/ws" "a.txt" "hello\n" "bob" none
        TempWriteFault.ok).1.success = true ∧
    ∃ v, (atomicRead (atomicWrite emptyAtomicState "/ws" "a.txt" "hello\n" "bob"
        none TempWriteFault.ok).2 "/ws" "a.txt" "alice").1
        = Except.ok ("hello\n", sha256Hex "hello\n", v) :=
  atomicWrite_atomicRead_roundtrip emptyAtomicState "/ws" "a.txt" "hello\n"
    "bob" "alice" (by decide)

/-! ## Claim C1: optimistic concurrency on write -/

/-- When the optimistic-concurrency check passes, `atomic_write` (absent I/O
errors) succeeds and increments the per-path version counter by exactly 1. -/
theorem atomicWrite_no_conflict_increments (s : AtomicState)
    (root p c owner : String) (e : Option String)
    (hguard : workspaceGuard root p = true)
    (hcheck : writeConflictCheck s (resolvePath root p) e = none) :
    (atomicWrite s root p c owner e TempWriteFault.ok).1.success = true ∧
    versionCounter (atomicWrite s root p c owner e TempWriteFault.ok).2 p
      = versionCounter s p + 1 := by
  unfold atomicWrite
  simp only [hguard, not_true, if_false, hcheck]
  simp only [writeFileAtomic, updateFileVersion, versionCounter]
  constructor
  · trivial
  · cases hv : s.versions p <;> simp [hv]

/-- C1 (amended): with a truthy (non-empty) stale expected etag on an existing
file, `atomic_write` returns an unsuccessful conflict result and leaves the
whole state (disk content and version counters) unchanged; with a matching
expected etag, an absent one, or an empty-string one, it succeeds and
increments the path's version counter by exactly 1. -/
theorem atomicWrite_conflict_and_increment (s : AtomicState)
    (root p c owner : String) (e : Option String)
    (hguard : workspaceGuard root p = true) :
    (∀ cur et, s.disk (resolvePath root p) = some cur → e = some et →
        et ≠ "" → sha256Hex cur ≠ et →
        (atomicWrite s root p c owner e TempWriteFault.ok).1.success = false ∧
        (atomicWrite s root p c owner e TempWriteFault.ok).1.error
          = some "Conflict detected: ETag mismatch" ∧
        (atomicWrite s root p c owner e TempWriteFault.ok).2 = s) ∧
    ((e = none ∨ e = some "" ∨
        (∃ cur, s.disk (resolvePath root p) = some cur ∧ e = some (sha256Hex cur))) →
        (atomicWrite s root p c owner e TempWriteFault.ok).1.success = true ∧
        versionCounter (atomicWrite s root p c owner e TempWriteFault.ok).2 p
          = versionCounter s p + 1) := by
  constructor
  · intro cur et hdisk he hne1 hne2
    subst he
    have hcheck : writeConflictCheck s (resolvePath root p) (some et)
        = some (sha256Hex cur) := by
      simp [writeConflictCheck, hdisk, hne1, hne2]
    unfold atomicWrite
    simp only [hguard, not_true, if_false, hcheck]
    exact ⟨trivial, trivial, trivial⟩
  · rintro (rfl | rfl | ⟨cur, hdisk, rfl⟩)
    · exact atomicWrite_no_conflict_increments s root p c owner none hguard rfl
    · refine atomicWrite_no_conflict_increments s root p c owner (some "") hguard ?_
      cases hd : s.disk (resolvePath root p) <;> simp [writeConflictCheck, hd]
    · refine atomicWrite_no_conflict_increments s root p c owner
        (some (sha256Hex cur)) hguard ?_
      simp [writeConflictCheck, hdisk]

/-- Witness for C1: on `/ws/a.txt` holding `"x=1\n"`, a write of `"x=2\n"`
with the matching expected etag succeeds and bumps the counter from 0 to 1. -/
theorem atomicWrite_conflict_and_increment_witness :
    (atomicWrite c1State "/ws" "a.txt" "x=2\n" "bob" (some (sha256Hex "x=1\n"))
        TempWriteFault.ok).1.success = true ∧
    versionCounter (atomicWrite c1State "/ws" "a.txt" "x=2\n" "bob"
        (some (sha256Hex "x=1\n")) TempWriteFault.ok).2 "a.txt"
      = versionCounter c1State "a.txt" + 1 :=
  (atomicWrite_conflict_and_increment c1State "/ws" "a.txt" "x=2\n" "bob"
      (some (sha256Hex "x=1\n")) (by decide)).2
    (Or.inr (Or.inr ⟨"x=1\n", by decide, rfl⟩))

/-- Counterexample to C1 as stated: on `/ws/a.txt` holding `"x=1\n"` (whose
hash is not the empty string), a write carrying the non-matching expected etag
`""` does not return a conflict — Python's truthiness test skips the check, the
write succeeds and the file is mutated. -/
theorem atomicWrite_empty_expected_etag_bypasses_check :
    sha256Hex "x=1\n" ≠ "" ∧
    (atomicWrite c1State "/ws" "a.txt" "x=2\n" "bob" (some "")
        TempWriteFault.ok).1.success = true ∧
    (atomicWrite c1State "/ws" "a.txt" "x=2\n" "bob" (some "")
        TempWriteFault.ok).2.disk "/ws/a.txt" = some "x=2\n" := by
  refine ⟨by decide, by decide, by decide⟩

/-! ## Claim C2: failure during the temp-write step -/

/-- C2: the code violates the claim.  With `/ws/a.txt` holding `"x=1\n"`, an
exception raised inside the temp-write step of `_write_file_atomic` (after the
partial content `"x="` reached the temp file) propagates, and afterwards the
temp file is still on disk (the `'temp_path' in locals()` cleanup guard is
false at that point) and the original path no longer exists: its content was
renamed away to the timestamped backup and is never restored. -/
theorem writeFileAtomic_temp_failure_leaves_orphan_and_moves_original :
    (writeFileAtomic c1State.disk "/ws/a.txt" "x=2\n" 7
        (TempWriteFault.failDuringWrite "x=") true).1
      = Except.error "temp write failed" ∧
    (writeFileAtomic c1State.disk "/ws/a.txt" "x=2\n" 7
        (TempWriteFault.failDuringWrite "x=") true).2 "/ws/a.txt" = none ∧
    (writeFileAtomic c1State.disk "/ws/a.txt" "x=2\n" 7
        (TempWriteFault.failDuringWrite "x=") true).2 (tmpPathOf "/ws/a.txt" 7)
      = some "x=" ∧
    (writeFileAtomic c1State.disk "/ws/a.txt" "x=2\n" 7
        (TempWriteFault.failDuringWrite "x=") true).2 (backupPathOf "/ws/a.txt" 7)
      = some "x=1\n" := by
  refine ⟨by decide, by decide, by decide, by decide⟩

/-! ## Claim C5: workspace containment check -/

/-- C5: the code violates the claim.  The containment check is a string-prefix
test, so with workspace root `/ws` the path `"../wsevil/secret.txt"` resolves
to the sibling directory `/wsevil` — outside the workspace root directory —
yet every operation accepts it and performs I/O there: `atomic_read` returns
the outside file's content, `atomic_write` creates a file outside the
workspace, `atomic_delete` succeeds, and the read-modify-write entry yields
the outside content instead of raising the path-escape `ValueError`. -/
theorem workspaceGuard_admits_sibling_escape :
    resolvePath "/ws" "../wsevil/secret.txt" = "/wsevil/secret.txt" ∧
    workspaceGuard "/ws" "../wsevil/secret.txt" = true ∧
    resolvesInsideWorkspace "/ws" "../wsevil/secret.txt" = false ∧
    (atomicRead c5State "/ws" "../wsevil/secret.txt" "agent").1
      = Except.ok ("s3cr3t", sha256Hex "s3cr3t", 1) ∧
    (atomicWrite c5State "/ws" "../wsevil/pwned.txt" "pwn" "agent" none
        TempWriteFault.ok).1.success = true ∧
    (atomicWrite c5State "/ws" "../wsevil/pwned.txt" "pwn" "agent" none
        TempWriteFault.ok).2.disk "/wsevil/pwned.txt" = some "pwn" ∧
    (atomicDelete c5State "/ws" "../wsevil/secret.txt" "agent").1.success = true ∧
    (atomicReadModifyWriteEnter c5State "/ws" "../wsevil/secret.txt")
      = Except.ok ("s3cr3t", sha256Hex "s3cr3t") := by
  refine ⟨by decide, by decide, by decide, by decide, by decide, by decide,
    by decide, by decide⟩

/-! ## Claim C3: strategy branch of aggregate_edits -/

/-- Counterexample to C3 as stated: in `preConflictState` the latest user and
agent versions of `f.txt` diverge (`"u\n"` versus `"a\n"`) and an unresolved
conflict already exists from an earlier `detect_conflicts` call, yet
`aggregate_edits` ignores the strategy: `USER_PRIORITY` does not return the
user content `"u\n"` and `MANUAL` does not return empty content plus the
conflicts — both return the most recent version's content `"a\n"` with no
conflicts, because the strategy branch is only reached when
`detect_conflicts` created a conflict during this very call. -/
theorem aggregateEdits_ignores_strategy_with_preexisting_conflict :
    (unresolvedFor preConflictState "f.txt").length = 1 ∧
    sha256Hex "u\n" ≠ sha256Hex "a\n" ∧
    (aggregateEdits preConflictState "f.txt"
        ConflictResolutionStrategy.userPriority).1 = ("a\n", []) ∧
    (aggregateEdits preConflictState "f.txt"
        ConflictResolutionStrategy.manual).1 = ("a\n", []) :=
  ⟨by decide, by decide, by decide, by decide⟩

/-! ## Claim C4: replay of a search-replace whose text is missing -/

/-- Counterexample to C4 as stated: the user/agent versions in `c4State` are
similar enough to merge (5/6 ≥ 0.8) and the agent version records two
search-replace operations, the first with search text `"zzz"` that does not
occur in the user content.  The merge is not abandoned: `str.replace` simply
leaves the content unchanged for the missing text, the second operation is
still applied, the merge returns non-empty content with no conflicts, and no
`MANUAL`-strategy conflict is ever created. -/
theorem mergeVersions_skips_missing_search_text :
    occursIn "zzz" "a\nb\nc\nd\ne\n" = false ∧
    mergeThreshold ≤ contentSimilarity "a\nb\nc\nd\ne\n" "a\nb\nc\nd\ne\nf\n" ∧
    (aggregateEdits c4State "f.txt" ConflictResolutionStrategy.merge).1
      = ("a\nb\nc\nd\nE\n", []) ∧
    ((aggregateEdits c4State "f.txt" ConflictResolutionStrategy.merge).2.conflicts.filter
        (fun c => c.resolutionStrategy = ConflictResolutionStrategy.manual)) = [] :=
  ⟨by decide, by decide, by decide, by decide⟩

/-! ## Claim C6: at most one unresolved conflict per path -/

/-- Counterexample to C6 as stated: after creating diverging user/agent
versions and one `aggregate_edits` call with the `MERGE` strategy (similarity
0 < 0.8), the conflict store holds two unresolved conflicts for `f.txt` — the
`MERGE`-strategy one persisted by `detect_conflicts` and the
`MANUAL`-strategy one persisted by `_merge_versions`, which never checks for
existing unresolved conflicts. -/
theorem two_unresolved_conflicts_reachable :
    (c6State.conflicts.filter
        (fun c => c.filePath = "f.txt" ∧ c.resolved = false)).length = 2 := by
  decide

/-! ## Claim C8: merge outcome by similarity -/

/-- Counterexample to C8 as stated: in `preConflictState` the latest versions
of `f.txt` diverge with similarity 0 < 0.8, so the claim requires
`aggregate_edits(MERGE)` to return empty content plus one new unresolved
manual conflict; but because an unresolved conflict already exists, the call
returns the most recent version's content with no conflicts instead. -/
theorem aggregateEdits_merge_ignores_similarity_with_preexisting_conflict :
    contentSimilarity "u\n" "a\n" < mergeThreshold ∧
    (aggregateEdits preConflictState "f.txt" ConflictResolutionStrategy.merge).1
      = ("a\n", []) :=
  ⟨by decide, by decide⟩

/-- A path with no conflict records at all has no unresolved ones. -/
theorem unresolvedFor_nil_of_no_conflicts (s : EvmState) (p : String)
    (h : s.conflicts.filter (fun c => c.filePath = p) = []) :
    unresolvedFor s p = [] := by
  have hall := List.filter_eq_nil_iff.mp h
  refine List.filter_eq_nil_iff.mpr ?_
  intro c hc
  intro hcontra
  exact hall c hc (by
    simp only [decide_eq_true_eq] at hcontra ⊢
    exact hcontra.1)

/-- Running `detect_conflicts` on diverging latest versions with no unresolved
conflict for the path: creates and persists exactly one `MERGE`-strategy
conflict and marks both versions. -/
theorem detectConflicts_creates (s : EvmState) (p : String) (uv av : EditVersion)
    (huv : getLatestVersion s p (some EditSource.user) = some uv)
    (hav : getLatestVersion s p (some EditSource.agent) = some av)
    (hne : uv.etag ≠ av.etag)
    (hfresh : unresolvedFor s p = []) :
    detectConflicts s p =
      ([detectedConflict s p uv av],
       { s with conflicts := s.conflicts ++ [detectedConflict s p uv av],
                versions := s.versions.map
                  (markConflict s.nextId uv.versionId av.versionId),
                nextId := s.nextId + 1, now := s.now + 1 }) := by
  unfold detectConflicts
  simp only [huv, hav]
  rw [if_neg hne, hfresh]
  rfl

/-- Running `detect_conflicts` on diverging latest versions while an unresolved
conflict for the path already exists: returns nothing and changes nothing. -/
theorem detectConflicts_skips (s : EvmState) (p : String) (uv av : EditVersion)
    (huv : getLatestVersion s p (some EditSource.user) = some uv)
    (hav : getLatestVersion s p (some EditSource.agent) = some av)
    (hne : uv.etag ≠ av.etag)
    (hstale : unresolvedFor s p ≠ []) :
    detectConflicts s p = ([], s) := by
  have hie : (unresolvedFor s p).isEmpty = false := by
    cases h : unresolvedFor s p with
    | nil => exact absurd h hstale
    | cons a t => rfl
  unfold detectConflicts
  simp only [huv, hav]
  rw [if_neg hne, hie]
  rfl

/-- C3 (amended): with diverging latest user/agent versions, `aggregate_edits`
branches on the strategy exactly when no unresolved conflict for the path
existed before the call (so the divergence is first detected during this
call): `USER_PRIORITY` returns the user content, `AGENT_PRIORITY` the agent
content, `MERGE` the result of the automatic merge, and `MANUAL` empty content
plus the newly detected unresolved conflict.  When an unresolved conflict for
the path already exists, the strategy is ignored and every strategy returns
the most recent version's content with no conflicts. -/
theorem aggregateEdits_strategy_branches (s : EvmState) (p : String)
    (uv av : EditVersion)
    (huv : getLatestVersion s p (some EditSource.user) = some uv)
    (hav : getLatestVersion s p (some EditSource.agent) = some av)
    (hne : uv.etag ≠ av.etag) :
    (unresolvedFor s p = [] →
      (aggregateEdits s p ConflictResolutionStrategy.userPriority).1
        = (uv.content, []) ∧
      (aggregateEdits s p ConflictResolutionStrategy.agentPriority).1
        = (av.content, []) ∧
      (aggregateEdits s p ConflictResolutionStrategy.merge).1
        = (mergeVersions (detectConflicts s p).2 uv av).1 ∧
      (aggregateEdits s p ConflictResolutionStrategy.manual).1
        = ("", [detectedConflict s p uv av]) ∧
      (detectedConflict s p uv av).resolved = false) ∧
    (unresolvedFor s p ≠ [] →
      ∀ strat, (aggregateEdits s p strat).1 = ((moreRecent uv av).content, [])) := by
  constructor
  · intro hfresh
    have hdet := detectConflicts_creates s p uv av huv hav hne hfresh
    unfold aggregateEdits
    simp only [huv, hav, hdet]
    exact ⟨rfl, rfl, rfl, rfl, rfl⟩
  · intro hstale strat
    have hdet := detectConflicts_skips s p uv av huv hav hne hstale
    unfold aggregateEdits
    simp only [huv, hav, hdet]
    rfl

/-- The map `markConflict` does not change the fields `get_latest_version` filters
and maximises on. -/
theorem versionMatches_markConflict (p : String) (src : Option EditSource)
    (cid uvId avId : Nat) (v : EditVersion) :
    versionMatches p src (markConflict cid uvId avId v) = versionMatches p src v := by
  unfold markConflict
  split <;> cases src <;> rfl

/-- The map `markConflict` preserves timestamps. -/
theorem markConflict_timestamp (cid uvId avId : Nat) (v : EditVersion) :
    (markConflict cid uvId avId v).timestamp = v.timestamp := by
  unfold markConflict
  split <;> rfl

/-- The map `markConflict` preserves etags. -/
theorem markConflict_etag (cid uvId avId : Nat) (v : EditVersion) :
    (markConflict cid uvId avId v).etag = v.etag := by
  unfold markConflict
  split <;> rfl

/-- The first-maximum fold commutes with a timestamp-preserving map. -/
theorem foldl_laterVersion_map (g : EditVersion → EditVersion)
    (hts : ∀ v, (g v).timestamp = v.timestamp) (l : List EditVersion) :
    ∀ acc : Option EditVersion,
      (l.map g).foldl laterVersion (acc.map g)
        = (l.foldl laterVersion acc).map g := by
  induction l with
  | nil => intro acc; rfl
  | cons v t ih =>
      intro acc
      have hstep : laterVersion (acc.map g) (g v) = (laterVersion acc v).map g := by
        cases acc with
        | none => rfl
        | some a =>
            by_cases hlt : v.timestamp > a.timestamp
            · have hlt2 : (g v).timestamp > (g a).timestamp := by
                rw [hts v, hts a]; exact hlt
              simp [laterVersion, hlt, hlt2]
            · have hlt2 : ¬ (g v).timestamp > (g a).timestamp := by
                rw [hts v, hts a]; exact hlt
              simp [laterVersion, hlt, hlt2]
      rw [List.map_cons, List.foldl_cons, List.foldl_cons, hstep, ih]

/-- The fold `latestOf` commutes with a map preserving the filter fields and the
timestamp. -/
theorem latestOf_map (g : EditVersion → EditVersion)
    (hmatch : ∀ p src v, versionMatches p src (g v) = versionMatches p src v)
    (hts : ∀ v, (g v).timestamp = v.timestamp)
    (vs : List EditVersion) (p : String) (src : Option EditSource) :
    latestOf (vs.map g) p src = (latestOf vs p src).map g := by
  unfold latestOf
  rw [List.filter_map]
  have hco : vs.filter (versionMatches p src ∘ g) = vs.filter (versionMatches p src) :=
    List.filter_congr (fun v _ => hmatch p src v)
  rw [hco]
  exact foldl_laterVersion_map g hts (vs.filter (versionMatches p src)) none

/-- C7: `detect_conflicts` is idempotent.  Starting from diverging latest
user/agent versions with no conflict record for the path, two successive
calls (with no versions created or modified in between) persist exactly one
conflict for the path, and the second call creates no duplicate and returns
the empty list. -/
theorem detectConflicts_idempotent (s : EvmState) (p : String)
    (uv av : EditVersion)
    (huv : getLatestVersion s p (some EditSource.user) = some uv)
    (hav : getLatestVersion s p (some EditSource.agent) = some av)
    (hne : uv.etag ≠ av.etag)
    (hnoc : s.conflicts.filter (fun c => c.filePath = p) = []) :
    ((detectConflicts (detectConflicts s p).2 p).2.conflicts.filter
        (fun c => c.filePath = p)).length = 1 ∧
    (detectConflicts (detectConflicts s p).2 p).1 = [] := by
  have hfresh := unresolvedFor_nil_of_no_conflicts s p hnoc
  have hdet := detectConflicts_creates s p uv av huv hav hne hfresh
  have hc0 : (detectedConflict s p uv av).filePath = p := rfl
  have hmatch : ∀ (q : String) (src : Option EditSource) (v : EditVersion),
      versionMatches q src (markConflict s.nextId uv.versionId av.versionId v)
        = versionMatches q src v :=
    fun q src v => versionMatches_markConflict q src s.nextId uv.versionId av.versionId v
  have hts : ∀ v : EditVersion,
      (markConflict s.nextId uv.versionId av.versionId v).timestamp = v.timestamp :=
    fun v => markConflict_timestamp s.nextId uv.versionId av.versionId v
  have huv1 : getLatestVersion (detectConflicts s p).2 p (some EditSource.user)
      = some (markConflict s.nextId uv.versionId av.versionId uv) := by
    rw [hdet]
    show latestOf (s.versions.map (markConflict s.nextId uv.versionId av.versionId))
        p (some EditSource.user) = _
    rw [latestOf_map _ (fun p src v => hmatch p src v) hts]
    rw [show latestOf s.versions p (some EditSource.user) = some uv from huv]
    rfl
  have hav1 : getLatestVersion (detectConflicts s p).2 p (some EditSource.agent)
      = some (markConflict s.nextId uv.versionId av.versionId av) := by
    rw [hdet]
    show latestOf (s.versions.map (markConflict s.nextId uv.versionId av.versionId))
        p (some EditSource.agent) = _
    rw [latestOf_map _ (fun p src v => hmatch p src v) hts]
    rw [show latestOf s.versions p (some EditSource.agent) = some av from hav]
    rfl
  have hne1 : (markConflict s.nextId uv.versionId av.versionId uv).etag
      ≠ (markConflict s.nextId uv.versionId av.versionId av).etag := by
    rw [markConflict_etag, markConflict_etag]
    exact hne
  have hfresh2 : List.filter (fun c => decide (c.filePath = p ∧ c.resolved = false))
      s.conflicts = [] := hfresh
  have hstale1 : unresolvedFor (detectConflicts s p).2 p ≠ [] := by
    rw [hdet]
    unfold unresolvedFor
    show (s.conflicts ++ [detectedConflict s p uv av]).filter _ ≠ []
    rw [List.filter_append, hfresh2]
    simp [detectedConflict]
  have hskip := detectConflicts_skips (detectConflicts s p).2 p _ _ huv1 hav1
    hne1 hstale1
  rw [hskip]
  refine ⟨?_, rfl⟩
  rw [hdet]
  show ((s.conflicts ++ [detectedConflict s p uv av]).filter _).length = 1
  rw [List.filter_append, hnoc]
  simp [detectedConflict]

/-- Python `str.replace(search, repl, 1)` is the identity when the search text does
not occur. -/
theorem replaceFirstList_noop (search repl : List Char) :
    ∀ l : List Char, isInfixList search l = false →
      replaceFirstList search repl l = l := by
  intro l
  induction l with
  | nil => intro h; rfl
  | cons c t ih =>
      intro h
      unfold isInfixList at h
      rw [Bool.or_eq_false_iff] at h
      unfold replaceFirstList
      rw [if_neg (by simp [h.1]), ih h.2]

/-- String version of `replaceFirstList_noop`. -/
theorem replaceFirst_noop (acc st rt : String) (h : occursIn st acc = false) :
    replaceFirst acc st rt = acc := by
  unfold replaceFirst
  rw [replaceFirstList_noop st.toList rt.toList acc.toList h]
  rfl

/-- When no replayed operation is a `FULL_CONTENT` edit, the replay loop never
raises and computes the pure fold. -/
theorem applyAgentEdits_ok (u : String) (l : List EditOperation)
    (h : ∀ op ∈ l, op.editType ≠ EditType.fullContent) :
    l.foldlM applyEditStep u = Except.ok (l.foldl applyEditPure u) := by
  induction l generalizing u with
  | nil => rfl
  | cons op t ih =>
      have h1 : op.editType ≠ EditType.fullContent := h op (List.mem_cons_self op t)
      have hstep : applyEditStep u op = Except.ok (applyEditPure u op) := by
        unfold applyEditStep
        rw [if_neg h1]
      rw [List.foldlM_cons, hstep]
      show t.foldlM applyEditStep (applyEditPure u op) = _
      rw [ih (applyEditPure u op) (fun o ho => h o (List.mem_cons_of_mem op ho))]
      rfl

/-- Running `_merge_versions` above the similarity threshold with no `FULL_CONTENT`
agent operation: returns the replayed content with no conflicts and leaves the
state unchanged. -/
theorem mergeVersions_ok (t : EvmState) (uv av : EditVersion)
    (hsim : ¬ contentSimilarity uv.content av.content < mergeThreshold)
    (hops : ∀ op ∈ agentOps t av, op.editType ≠ EditType.fullContent) :
    mergeVersions t uv av
      = (((agentOps t av).foldl applyEditPure uv.content, []), t) := by
  unfold mergeVersions
  rw [if_neg hsim]
  unfold applyAgentEditsToUserContent
  rw [applyAgentEdits_ok uv.content (agentOps t av) hops]

/-- Running `_merge_versions` below the similarity threshold: persists a fresh
unresolved `MANUAL`-strategy conflict and returns empty content. -/
theorem mergeVersions_manual (t : EvmState) (uv av : EditVersion)
    (hsim : contentSimilarity uv.content av.content < mergeThreshold) :
    mergeVersions t uv av
      = (("", [manualConflictFor t uv av]),
         { t with conflicts := t.conflicts ++ [manualConflictFor t uv av],
                  nextId := t.nextId + 1, now := t.now + 1 }) := by
  unfold mergeVersions
  rw [if_pos hsim]

/-- On a freshly detected divergence, `aggregate_edits` with the `MERGE`
strategy hands over to `_merge_versions` on the post-detection state. -/
theorem aggregateEdits_merge_eq (s : EvmState) (p : String) (uv av : EditVersion)
    (huv : getLatestVersion s p (some EditSource.user) = some uv)
    (hav : getLatestVersion s p (some EditSource.agent) = some av)
    (hne : uv.etag ≠ av.etag)
    (hfresh : unresolvedFor s p = []) :
    aggregateEdits s p ConflictResolutionStrategy.merge
      = mergeVersions (detectConflicts s p).2 uv av := by
  have hdet := detectConflicts_creates s p uv av huv hav hne hfresh
  unfold aggregateEdits
  simp only [huv, hav, hdet]
  rfl

/-- C8 (amended): on a divergence first detected by this call (no unresolved
conflict existed for the path), `aggregate_edits` with the `MERGE` strategy
returns the replayed content with no conflicts when the line-set similarity is
at least 0.8 and every recorded agent operation is a search-replace whose
search text occurs in the user content; when the similarity is below 0.8 it
returns empty content plus exactly one new unresolved conflict flagged for
manual resolution. -/
theorem aggregateEdits_merge_outcomes (s : EvmState) (p : String)
    (uv av : EditVersion)
    (huv : getLatestVersion s p (some EditSource.user) = some uv)
    (hav : getLatestVersion s p (some EditSource.agent) = some av)
    (hne : uv.etag ≠ av.etag)
    (hfresh : unresolvedFor s p = []) :
    (mergeThreshold ≤ contentSimilarity uv.content av.content →
      (∀ op ∈ agentOps s av, op.editType = EditType.searchReplace ∧
          (op.searchText.map (fun st => occursIn st uv.content)).getD false = true) →
      (aggregateEdits s p ConflictResolutionStrategy.merge).1
        = ((agentOps s av).foldl applyEditPure uv.content, [])) ∧
    (contentSimilarity uv.content av.content < mergeThreshold →
      (aggregateEdits s p ConflictResolutionStrategy.merge).1
        = ("", [manualConflictFor (detectConflicts s p).2 uv av]) ∧
      (manualConflictFor (detectConflicts s p).2 uv av).resolved = false ∧
      (manualConflictFor (detectConflicts s p).2 uv av).resolutionStrategy
        = ConflictResolutionStrategy.manual) := by
  have hdet := detectConflicts_creates s p uv av huv hav hne hfresh
  have hagg := aggregateEdits_merge_eq s p uv av huv hav hne hfresh
  constructor
  · intro hsim hops
    rw [hagg, hdet]
    have hops2 : ∀ op ∈ agentOps
        { s with conflicts := s.conflicts ++ [detectedConflict s p uv av],
                 versions := s.versions.map
                   (markConflict s.nextId uv.versionId av.versionId),
                 nextId := s.nextId + 1, now := s.now + 1 } av,
        op.editType ≠ EditType.fullContent := by
      intro op hop
      have h1 : op.editType = EditType.searchReplace := (hops op hop).1
      rw [h1]
      decide
    rw [mergeVersions_ok _ uv av (not_lt.mpr hsim) hops2]
    rfl
  · intro hsim
    rw [hagg, hdet, mergeVersions_manual _ uv av hsim]
    exact ⟨rfl, rfl, rfl⟩

/-- C4 (amended): during an automatic merge above the similarity threshold in
which every recorded agent operation is a search-replace, a search-replace
whose search text does not occur is silently skipped — `str.replace` leaves
the content unchanged — and the remaining operations are still applied: the
merge returns the replayed content with no conflicts and raises nothing, and
no conflict flagged for manual resolution is created.  (Only a `FULL_CONTENT`
operation aborts the merge.) -/
theorem mergeVersions_replay_skips_nonoccurring (s : EvmState) (p : String)
    (uv av : EditVersion)
    (huv : getLatestVersion s p (some EditSource.user) = some uv)
    (hav : getLatestVersion s p (some EditSource.agent) = some av)
    (hne : uv.etag ≠ av.etag)
    (hfresh : unresolvedFor s p = [])
    (hsim : mergeThreshold ≤ contentSimilarity uv.content av.content)
    (hops : ∀ op ∈ agentOps s av, op.editType = EditType.searchReplace) :
    (aggregateEdits s p ConflictResolutionStrategy.merge).1
      = ((agentOps s av).foldl applyEditPure uv.content, []) ∧
    (∀ (acc : String) (op : EditOperation) (st rt : String),
        op.searchText = some st → op.replaceText = some rt →
        occursIn st acc = false → applyEditPure acc op = acc) := by
  have hdet := detectConflicts_creates s p uv av huv hav hne hfresh
  have hagg := aggregateEdits_merge_eq s p uv av huv hav hne hfresh
  constructor
  · rw [hagg, hdet]
    have hops2 : ∀ op ∈ agentOps
        { s with conflicts := s.conflicts ++ [detectedConflict s p uv av],
                 versions := s.versions.map
                   (markConflict s.nextId uv.versionId av.versionId),
                 nextId := s.nextId + 1, now := s.now + 1 } av,
        op.editType ≠ EditType.fullContent := by
      intro op hop
      rw [hops op hop]
      decide
    rw [mergeVersions_ok _ uv av (not_lt.mpr hsim) hops2]
    rfl
  · intro acc op st rt hst hrt hnocc
    unfold applyEditPure
    cases hty : op.editType with
    | searchReplace =>
        simp only [hst, hrt]
        by_cases h0 : st = "" ∨ rt = ""
        · rw [if_pos h0]
        · rw [if_neg h0]
          exact replaceFirst_noop acc st rt hnocc
    | fullContent => rfl
    | insert => rfl
    | delete => rfl

/-- Filtering after a map that only weakens the predicate cannot increase the
number of survivors. -/
theorem filter_length_map_le {α : Type} (f : α → α) (q : α → Bool)
    (h : ∀ x, q (f x) = true → q x = true) (l : List α) :
    ((l.map f).filter q).length ≤ (l.filter q).length := by
  induction l with
  | nil => exact Nat.le_refl 0
  | cons x t ih =>
      rw [List.map_cons, List.filter_cons, List.filter_cons]
      by_cases hq : q (f x) = true
      · rw [if_pos hq, if_pos (h x hq)]
        exact Nat.succ_le_succ ih
      · rw [if_neg hq]
        by_cases hqx : q x = true
        · rw [if_pos hqx]
          exact Nat.le_succ_of_le ih
        · rw [if_neg hqx]
          exact ih

/-- A path with no unresolved conflicts has no unresolved `MERGE` ones. -/
theorem filter_mergePred_nil (s : EvmState) (p : String)
    (h : unresolvedFor s p = []) :
    s.conflicts.filter (mergeConflictPred p) = [] := by
  have hall := List.filter_eq_nil_iff.mp h
  refine List.filter_eq_nil_iff.mpr ?_
  intro c hc hpred
  refine hall c hc ?_
  simp only [mergeConflictPred, decide_eq_true_eq] at hpred
  simp only [decide_eq_true_eq]
  exact ⟨hpred.1, hpred.2.1⟩

/-- A `MANUAL`-strategy conflict never counts as an unresolved `MERGE` one. -/
theorem mergePred_manual_false (q : String) (c : EditConflict)
    (h : c.resolutionStrategy = ConflictResolutionStrategy.manual) :
    mergeConflictPred q c = false := by
  simp [mergeConflictPred, h]

/-- A version selected by `versionMatches` lives at the filtered path. -/
theorem versionMatches_filePath (p : String) (src : Option EditSource)
    (v : EditVersion) (h : versionMatches p src v = true) : v.filePath = p := by
  cases src with
  | none =>
      simp only [versionMatches] at h
      exact of_decide_eq_true h
  | some srcv =>
      simp only [versionMatches] at h
      exact (of_decide_eq_true h).1

/-- The first-maximum fold returns either an element of the list or its
accumulator. -/
theorem foldl_laterVersion_mem (l : List EditVersion) :
    ∀ (acc : Option EditVersion) (y : EditVersion),
      l.foldl laterVersion acc = some y → y ∈ l ∨ acc = some y := by
  induction l with
  | nil =>
      intro acc y h
      exact Or.inr h
  | cons v t ih =>
      intro acc y h
      rw [List.foldl_cons] at h
      rcases ih (laterVersion acc v) y h with hmem | hacc
      · exact Or.inl (List.mem_cons_of_mem v hmem)
      · cases acc with
        | none =>
            have h2 : some v = some y := hacc
            refine Or.inl ?_
            rw [← Option.some.inj h2]
            exact List.mem_cons_self v t
        | some a =>
            by_cases hlt : v.timestamp > a.timestamp
            · have h2 : some v = some y := by
                simpa [laterVersion, hlt] using hacc
              refine Or.inl ?_
              rw [← Option.some.inj h2]
              exact List.mem_cons_self v t
            · right
              simpa [laterVersion, hlt] using hacc

/-- The latest version returned by `get_latest_version` belongs to the
requested path. -/
theorem getLatestVersion_filePath (s : EvmState) (p : String)
    (src : Option EditSource) (uv : EditVersion)
    (h : getLatestVersion s p src = some uv) : uv.filePath = p := by
  unfold getLatestVersion latestOf at h
  rcases foldl_laterVersion_mem _ _ _ h with hmem | hacc
  · exact versionMatches_filePath p src uv (List.mem_filter.mp hmem).2
  · exact Option.noConfusion hacc

/-- Exhaustive case split for `detect_conflicts`: either the call is a no-op
returning nothing, or the latest user and agent versions exist, diverge, and
no unresolved conflict for the path was recorded (the creation case). -/
theorem detect_cases (s : EvmState) (p : String) :
    detectConflicts s p = ([], s) ∨
    ∃ uv av : EditVersion,
      getLatestVersion s p (some EditSource.user) = some uv ∧
      getLatestVersion s p (some EditSource.agent) = some av ∧
      uv.etag ≠ av.etag ∧ unresolvedFor s p = [] := by
  unfold detectConflicts
  split
  · rename_i uv av hequ heqa
    split
    · exact Or.inl rfl
    · rename_i hne
      split
      · rename_i hie
        have hfresh : unresolvedFor s p = [] := by
          cases h : unresolvedFor s p with
          | nil => rfl
          | cons a t => rw [h] at hie; cases hie
        exact Or.inr ⟨uv, av, hequ, heqa, hne, hfresh⟩
      · exact Or.inl rfl
  · exact Or.inl rfl

/-- The state produced by the creation branch of `detect_conflicts` still
satisfies the conflict-store invariant: the path had no unresolved conflict,
so it now has exactly the one new `MERGE`-strategy conflict. -/
theorem detect_create_case (s : EvmState) (p : String) (uv av : EditVersion)
    (hfresh : unresolvedFor s p = []) (hs : ConflictInv s) :
    ConflictInv { s with conflicts := s.conflicts ++ [detectedConflict s p uv av],
                         versions := s.versions.map
                           (markConflict s.nextId uv.versionId av.versionId),
                         nextId := s.nextId + 1, now := s.now + 1 } := by
  have hfresh2 : List.filter (fun c => decide (c.filePath = p ∧ c.resolved = false))
      s.conflicts = [] := hfresh
  intro q
  constructor
  · show ((s.conflicts ++ [detectedConflict s p uv av]).filter _).length ≤ 2
    rw [List.filter_append, List.length_append]
    by_cases hq : q = p
    · subst hq
      rw [hfresh2]
      have h1 := List.length_filter_le
        (fun c => decide (c.filePath = q ∧ c.resolved = false))
        [detectedConflict s q uv av]
      simp at h1 ⊢
      omega
    · have hpq : p ≠ q := fun h => hq h.symm
      have hz : List.filter (fun c => decide (c.filePath = q ∧ c.resolved = false))
          [detectedConflict s p uv av] = [] := by
        simp [detectedConflict, hpq]
      rw [hz]
      have hgoal : (List.filter
          (fun c => decide (c.filePath = q ∧ c.resolved = false))
          s.conflicts).length ≤ 2 := (hs q).1
      simpa using hgoal
  · show ((s.conflicts ++ [detectedConflict s p uv av]).filter
        (mergeConflictPred q)).length ≤ 1
    rw [List.filter_append, List.length_append]
    by_cases hq : q = p
    · subst hq
      rw [filter_mergePred_nil s q hfresh]
      have h1 := List.length_filter_le (mergeConflictPred q)
        [detectedConflict s q uv av]
      simp at h1 ⊢
      omega
    · have hpq : p ≠ q := fun h => hq h.symm
      have hz : List.filter (mergeConflictPred q) [detectedConflict s p uv av]
          = [] := by
        simp [mergeConflictPred, detectedConflict, hpq]
      rw [hz]
      have hgoal : (List.filter (mergeConflictPred q) s.conflicts).length ≤ 1 :=
        (hs q).2
      simpa using hgoal

/-- The call `detect_conflicts` preserves the conflict-store invariant. -/
theorem detect_preserves_inv (s : EvmState) (p : String) (hs : ConflictInv s) :
    ConflictInv (detectConflicts s p).2 := by
  rcases detect_cases s p with hdet | ⟨uv, av, huv, hav, hne, hfresh⟩
  · rw [hdet]
    exact hs
  · rw [detectConflicts_creates s p uv av huv hav hne hfresh]
    exact detect_create_case s p uv av hfresh hs

/-- The call `_merge_versions` preserves the conflict-store invariant,
provided its target path carries at most one unresolved conflict when it
runs — which is the case on the only path that reaches it, right after
`detect_conflicts` created the first one. -/
theorem merge_versions_inv (t : EvmState) (uv av : EditVersion)
    (hb : ConflictInv t)
    (hcap : (unresolvedFor t uv.filePath).length ≤ 1) :
    ConflictInv (mergeVersions t uv av).2 := by
  have hone : ConflictInv
      { t with conflicts := t.conflicts ++ [manualConflictFor t uv av],
               nextId := t.nextId + 1, now := t.now + 1 } := by
    intro q
    constructor
    · show ((t.conflicts ++ [manualConflictFor t uv av]).filter _).length ≤ 2
      rw [List.filter_append, List.length_append]
      by_cases hq : q = uv.filePath
      · subst hq
        have h1 : (List.filter
            (fun c => decide (c.filePath = uv.filePath ∧ c.resolved = false))
            t.conflicts).length ≤ 1 := hcap
        have h2 : (List.filter
            (fun c => decide (c.filePath = uv.filePath ∧ c.resolved = false))
            [manualConflictFor t uv av]).length ≤ 1 := by
          simpa using List.length_filter_le
            (fun c => decide (c.filePath = uv.filePath ∧ c.resolved = false))
            [manualConflictFor t uv av]
        omega
      · have hne2 : uv.filePath ≠ q := fun h => hq h.symm
        have hz : List.filter (fun c => decide (c.filePath = q ∧ c.resolved = false))
            [manualConflictFor t uv av] = [] := by
          simp [manualConflictFor, hne2]
        rw [hz]
        have hgoal : (List.filter
            (fun c => decide (c.filePath = q ∧ c.resolved = false))
            t.conflicts).length ≤ 2 := (hb q).1
        simpa using hgoal
    · show ((t.conflicts ++ [manualConflictFor t uv av]).filter
          (mergeConflictPred q)).length ≤ 1
      rw [List.filter_append, List.length_append]
      have hff := mergePred_manual_false q (manualConflictFor t uv av) rfl
      have hz : List.filter (mergeConflictPred q) [manualConflictFor t uv av]
          = [] := by
        simp [List.filter, hff]
      rw [hz]
      have hgoal : (List.filter (mergeConflictPred q) t.conflicts).length ≤ 1 :=
        (hb q).2
      simpa using hgoal
  unfold mergeVersions
  split
  · exact hone
  · split
    · exact hb
    · exact hone

/-- The call `aggregate_edits` preserves the conflict-store invariant: the
merge branch runs only when `detect_conflicts` just created the path's single
unresolved conflict, so `_merge_versions` can add at most one more. -/
theorem aggregate_preserves_inv (s : EvmState) (p : String)
    (strategy : ConflictResolutionStrategy) (hs : ConflictInv s) :
    ConflictInv (aggregateEdits s p strategy).2 := by
  rcases detect_cases s p with hdet | ⟨uv, av, huv, hav, hne, hfresh⟩
  · cases hu : getLatestVersion s p (some EditSource.user) with
    | none =>
        cases ha : getLatestVersion s p (some EditSource.agent) with
        | none =>
            cases hd : s.disk p with
            | none => simp only [aggregateEdits, hu, ha, hd]; exact hs
            | some c => simp only [aggregateEdits, hu, ha, hd]; exact hs
        | some av2 => simp only [aggregateEdits, hu, ha]; exact hs
    | some uv2 =>
        cases ha : getLatestVersion s p (some EditSource.agent) with
        | none => simp only [aggregateEdits, hu, ha]; exact hs
        | some av2 =>
            simp only [aggregateEdits, hu, ha, hdet]
            exact hs
  · have hdet2 := detectConflicts_creates s p uv av huv hav hne hfresh
    have hb := detect_create_case s p uv av hfresh hs
    have hfp : uv.filePath = p :=
      getLatestVersion_filePath s p (some EditSource.user) uv huv
    have hfresh2 : List.filter (fun c => decide (c.filePath = p ∧ c.resolved = false))
        s.conflicts = [] := hfresh
    have hcap : (unresolvedFor
        { s with conflicts := s.conflicts ++ [detectedConflict s p uv av],
                 versions := s.versions.map
                   (markConflict s.nextId uv.versionId av.versionId),
                 nextId := s.nextId + 1, now := s.now + 1 } uv.filePath).length ≤ 1 := by
      rw [hfp]
      unfold unresolvedFor
      show ((s.conflicts ++ [detectedConflict s p uv av]).filter _).length ≤ 1
      rw [List.filter_append, hfresh2]
      simpa using List.length_filter_le _ [detectedConflict s p uv av]
    have hcond : (((detectConflicts s p).1.filter
        (fun c => c.resolved = false)).isEmpty) = false := by
      rw [hdet2]
      rfl
    unfold aggregateEdits
    simp only [huv, hav]
    rw [hcond]
    simp only [Bool.false_eq_true, if_false]
    cases strategy with
    | userPriority => rw [hdet2]; exact hb
    | agentPriority => rw [hdet2]; exact hb
    | merge =>
        rw [hdet2]
        exact merge_versions_inv _ uv av hb hcap
    | manual => rw [hdet2]; exact hb

/-- Marking a conflict resolved and then linking its resolution version can
only remove survivors of any predicate that ignores the notes and the
resolution link and excludes resolved conflicts. -/
theorem resolve_state_le (l mid : List EditConflict) (cid vid : Nat)
    (notes : Option String) (q : EditConflict → Bool)
    (h1 : ∀ x, q (markResolved cid notes x) = true → q x = true)
    (h2 : ∀ x, q (linkResolution cid vid x) = true → q x = true)
    (hmid : mid = l.map (markResolved cid notes)) :
    ((mid.map (linkResolution cid vid)).filter q).length
      ≤ (l.filter q).length := by
  subst hmid
  exact Nat.le_trans (filter_length_map_le _ _ h2 _)
    (filter_length_map_le _ _ h1 l)

/-- The call `resolve_conflict` preserves the conflict-store invariant. -/
theorem resolve_preserves_inv (s : EvmState) (cid : Nat) (rc : String)
    (notes : Option String) (hs : ConflictInv s) :
    ConflictInv (runOp s (EvmOp.resolve cid rc notes)) := by
  cases hfind : s.conflicts.find? (fun c => c.conflictId = cid) with
  | none =>
      simp only [runOp, resolveConflict, hfind]
      exact hs
  | some c =>
      simp only [runOp, resolveConflict, hfind]
      intro q
      constructor
      · refine Nat.le_trans
          (resolve_state_le s.conflicts _ cid _ notes _ ?_ ?_ rfl) (hs q).1
        · intro x hx
          unfold markResolved at hx
          by_cases hc : x.conflictId = cid
          · rw [if_pos hc] at hx
            simp at hx
          · rw [if_neg hc] at hx
            exact hx
        · intro x hx
          unfold linkResolution at hx
          by_cases hc : x.conflictId = cid
          · rw [if_pos hc] at hx
            exact hx
          · rw [if_neg hc] at hx
            exact hx
      · refine Nat.le_trans
          (resolve_state_le s.conflicts _ cid _ notes _ ?_ ?_ rfl) (hs q).2
        · intro x hx
          unfold markResolved at hx
          by_cases hc : x.conflictId = cid
          · rw [if_pos hc] at hx
            simp [mergeConflictPred] at hx
          · rw [if_neg hc] at hx
            exact hx
        · intro x hx
          unfold linkResolution at hx
          by_cases hc : x.conflictId = cid
          · rw [if_pos hc] at hx
            exact hx
          · rw [if_neg hc] at hx
            exact hx

/-- Every public mutating call preserves the conflict-store invariant. -/
theorem runOp_preserves_inv (s : EvmState) (o : EvmOp) (hs : ConflictInv s) :
    ConflictInv (runOp s o) := by
  cases o with
  | recordOp p src ty owner desc search repl cont => exact hs
  | createVersion p c src owner base opIds => exact hs
  | detect p => exact detect_preserves_inv s p hs
  | aggregate p strategy => exact aggregate_preserves_inv s p strategy hs
  | resolve cid c notes => exact resolve_preserves_inv s cid c notes hs

/-- C6 (amended): in every state reachable by any sequence of
`record_edit_operation`, `create_edit_version`, `detect_conflicts`,
`aggregate_edits` and `resolve_conflict` calls, at most two unresolved
`EditConflict` records with `file_path = P` exist per path P at any time — at
most one with resolution strategy `MERGE` (the kind `detect_conflicts`
creates and deduplicates), plus possibly one `MANUAL`-strategy conflict
persisted by a failed automatic merge in the same `aggregate_edits` call.
The bound two is attained, refuting the claimed bound of one. -/
theorem at_most_two_unresolved_per_path (ops : List EvmOp) (p : String) :
    (unresolvedFor (runOps initEvm ops) p).length ≤ 2 ∧
    unresolvedMergeCount (runOps initEvm ops) p ≤ 1 := by
  have hrun : ∀ (l : List EvmOp) (s : EvmState),
      ConflictInv s → ConflictInv (runOps s l) := by
    intro l
    induction l with
    | nil => intro s hs; exact hs
    | cons o t ih =>
        intro s hs
        exact ih (runOp s o) (runOp_preserves_inv s o hs)
  exact hrun ops initEvm (fun q => ⟨Nat.zero_le 2, Nat.zero_le 1⟩) p

/-- Witness for C3 at `c7State` (diverging versions, no pre-existing
conflict): `USER_PRIORITY` returns the user version's content. -/
theorem aggregateEdits_strategy_branches_witness :
    (aggregateEdits c7State "f.txt" ConflictResolutionStrategy.userPriority).1
      = (c7UserV.content, []) :=
  (((aggregateEdits_strategy_branches c7State "f.txt" c7UserV c7AgentV
      (by decide) (by decide) (by decide)).1) (by decide)).1

/-- Witness for C7 at `c7State`: two `detect_conflicts` calls persist exactly
one conflict and the second returns nothing. -/
theorem detectConflicts_idempotent_witness :
    ((detectConflicts (detectConflicts c7State "f.txt").2 "f.txt").2.conflicts.filter
        (fun c => c.filePath = "f.txt")).length = 1 ∧
    (detectConflicts (detectConflicts c7State "f.txt").2 "f.txt").1 = [] :=
  detectConflicts_idempotent c7State "f.txt" c7UserV c7AgentV
    (by decide) (by decide) (by decide) (by decide)

/-- Witness for C8 at `c8State` (similarity 5/6 ≥ 0.8, one search-replace
operation whose text occurs): the merge returns the replayed content and no
conflicts. -/
theorem aggregateEdits_merge_outcomes_witness :
    (aggregateEdits c8State "f.txt" ConflictResolutionStrategy.merge).1
      = ((agentOps c8State c8AgentV).foldl applyEditPure c8UserV.content, []) :=
  (aggregateEdits_merge_outcomes c8State "f.txt" c8UserV c8AgentV
      (by decide) (by decide) (by decide) (by decide)).1 (by decide) (by decide)

/-- Witness for C4 at `c4State` (one operation's search text missing): the
merge still returns the replayed content with no conflicts. -/
theorem mergeVersions_replay_skips_nonoccurring_witness :
    (aggregateEdits c4State "f.txt" ConflictResolutionStrategy.merge).1
      = ((agentOps c4State c4AgentV).foldl applyEditPure c4UserV.content, []) :=
  (mergeVersions_replay_skips_nonoccurring c4State "f.txt" c4UserV c4AgentV
      (by decide) (by decide) (by decide) (by decide) (by decide) (by decide)).1
